import Mathlib

/-!
Verification of the Granix Route Planning & Reconciliation Engine.

The repository ships the React frontend (AppContext, RouteMap, DeliveryTracker)
together with a README describing the Flask backend (customer service,
reconciliation matcher, route optimizer, loading-list generator).  The frontend
components are embedded here directly from their JavaScript sources; backend
components whose Python sources are not part of the repository are modelled
from the specification, and each such definition says so in its doc comment.
-/

namespace Granix

/-! ## JavaScript value model

The RouteMap filters test coordinate values for truthiness
(`point.coordinates && point.coordinates.latitude && point.coordinates.longitude`),
so the embedding distinguishes a missing value (undefined / null) from a
numeric value, and a numeric value of zero is falsy. -/

inductive JsNum where
  | missing
  | num (v : Int)
deriving DecidableEq, Repr

def JsNum.truthy : JsNum → Bool
  | .missing => false
  | .num v => v != 0

/-- JavaScript `a || b` on an optional string: `undefined`, `null` and the
empty string are falsy. -/
def jsOrString : Option String → String → String
  | none, b => b
  | some s, b => if s = "" then b else s

/-! ## RouteMap (src/frontend/src/features/Delivery/RouteMap.js) -/

structure Coords where
  latitude : JsNum
  longitude : JsNum
deriving DecidableEq, Repr

/-- One element of `routeData` as consumed by the RouteMap component:
either a delivery stop or an invoice record. -/
structure MapPoint where
  coordinates : Option Coords
  delivery_address : Option String
  parsed_data_address : Option String
  commercial_entity : Option String
  invoice_id : String
deriving DecidableEq, Repr

/-- One entry of the `locations` array built by RouteMap. -/
structure MapLocation where
  lat : JsNum
  lon : JsNum
  address : String
  entity : String
deriving DecidableEq, Repr

/-- The filter predicate of RouteMap:
`point.coordinates && point.coordinates.latitude && point.coordinates.longitude`. -/
def hasTruthyCoords (p : MapPoint) : Bool :=
  match p.coordinates with
  | none => false
  | some c => c.latitude.truthy && c.longitude.truthy

def toLocation (p : MapPoint) : MapLocation :=
  { lat := match p.coordinates with
           | none => JsNum.missing
           | some c => c.latitude
    lon := match p.coordinates with
           | none => JsNum.missing
           | some c => c.longitude
    address := jsOrString p.delivery_address (jsOrString p.parsed_data_address "")
    entity := jsOrString p.commercial_entity ("Invoice ID: " ++ p.invoice_id) }

/-- `locations = routeData.filter(...).map(...)` from RouteMap. -/
def locationsOf (routeData : List MapPoint) : List MapLocation :=
  (routeData.filter hasTruthyCoords).map toLocation

/-- The straight-line fallback polyline:
`locations.length > 1 ? locations.map(loc => [loc.lat, loc.lon]) : []`. -/
def straightLine (locs : List MapLocation) : List (JsNum × JsNum) :=
  if 1 < locs.length then locs.map (fun l => (l.lat, l.lon)) else []

/-- `polylinePositions` from RouteMap:
`(streetLevelPolyline && streetLevelPolyline.length > 0) ? streetLevelPolyline
 : (locations.length > 1 ? locations.map(...) : [])`. -/
def polylinePositions (slp : Option (List (JsNum × JsNum))) (locs : List MapLocation) :
    List (JsNum × JsNum) :=
  match slp with
  | some l => if 0 < l.length then l else straightLine locs
  | none => straightLine locs

/-- What the RouteMap component renders: the ordered markers and the polyline. -/
structure RenderedMap where
  markers : List MapLocation
  polyline : List (JsNum × JsNum)
deriving DecidableEq, Repr

def renderRouteMap (routeData : List MapPoint) (slp : Option (List (JsNum × JsNum))) :
    RenderedMap :=
  let locs := locationsOf routeData
  { markers := locs, polyline := polylinePositions slp locs }

/-! ## AppContext (src/frontend/src/context/AppContext.js) -/

/-- The slice of React context state that `processInvoice` reads and writes. -/
structure AppState (α : Type) where
  invoices : List α
  isLoading : Bool
  error : Option String
deriving DecidableEq, Repr

/-- Outcome of the `api.post` call: either response data or a thrown error
whose `message` property may be absent or empty. -/
inductive ApiResult (α : Type) where
  | ok (data : α)
  | fail (message : Option String)
deriving DecidableEq, Repr

/-- `err.message || 'An unknown error occurred during invoice processing.'`. -/
def errMessage : Option String → String
  | none => "An unknown error occurred during invoice processing."
  | some m => if m = "" then "An unknown error occurred during invoice processing." else m

/-- `processInvoice` from AppContext.js: sets loading, clears the error, awaits
the API call; on success appends `response.data` to the invoices list, on
failure sets the error message; `finally` clears the loading flag. -/
def processInvoice {α : Type} (s : AppState α) (response : ApiResult (List α)) :
    AppState α :=
  match response with
  | .ok newInvoices =>
      { invoices := s.invoices ++ newInvoices, isLoading := false, error := none }
  | .fail m =>
      { invoices := s.invoices, isLoading := false, error := some (errMessage m) }

/-! ## DeliveryTracker (src/frontend/src/features/Delivery/RouteMap.js, second component) -/

/-- The two action buttons of DeliveryTracker. -/
inductive TrackerButton where
  | delivered
  | undelivered
deriving DecidableEq, Repr

/-- `handleNextStop`: advance `currentStopIndex` only while it is below the
route length. -/
def handleNextStop (routeLen idx : Nat) : Nat :=
  if idx < routeLen then idx + 1 else idx

/-- Both buttons invoke `handleNextStop` as their onClick handler. -/
def pressButton : TrackerButton → Nat → Nat → Nat
  | .delivered, routeLen, idx => handleNextStop routeLen idx
  | .undelivered, routeLen, idx => handleNextStop routeLen idx

/-- `currentStopIndex` after a sequence of button presses, starting from the
initial `useState(0)`. -/
def runPresses (routeLen : Nat) (presses : List TrackerButton) : Nat :=
  presses.foldl (fun idx b => pressButton b routeLen idx) 0

/-- `isRouteComplete = currentStopIndex >= optimizedRoute.length`. -/
def isRouteComplete (routeLen idx : Nat) : Bool :=
  decide (routeLen ≤ idx)

/-! ## Backend data model

Modelled from the spec: the Flask backend (`routes.py`, `invoice_service.py`,
`customer_service.py`, `route_optimizer.py`) is not part of the repository
sources; only the README and the spec describe it.  The definitions below
follow the spec's data model (section 3) and component contracts (section 4)
verbatim. -/

inductive ItemStatus where
  | pending_link
  | linked
  | review_required
deriving DecidableEq, Repr

/-- Modelled from the spec: a DeliveryItem record of the `delivery_items`
collection (spec section 3). -/
structure DeliveryItem where
  id : String
  normalized_address : String
  commercial_entity : String
  package_count : Nat
  status : ItemStatus
  invoice_id : Option String
  product_items : List String
  coordinates : Option (Int × Int)
  created_at : Nat
deriving DecidableEq, Repr

inductive InvStatus where
  | unlinked
  | invLinked
deriving DecidableEq, Repr

/-- Modelled from the spec: an Invoice record of the `invoices` collection
(spec section 3). -/
structure InvoiceRec where
  id : String
  normalized_address : String
  product_items : List String
  status : InvStatus
  created_at : Nat
deriving DecidableEq, Repr

/-- Modelled from the spec: `link(invoice) -> LinkResult` (spec section 4.4). -/
inductive LinkResult where
  | Linked (delivery_item_id : String)
  | NoCandidate
  | AmbiguousOrStale
deriving DecidableEq, Repr

/-! ## Reconciliation Matcher

Modelled from the spec (section 4.4): select the DeliveryItems with
`status = pending_link` and the invoice's normalized address; if empty, store
the invoice `unlinked` and return `NoCandidate`; otherwise pick the candidate
with the oldest `created_at`, transition it to `linked`, stamp its
`invoice_id`, copy the invoice's `product_items` into it, and mark the
invoice `linked`. -/

/-- The persisted state the matcher operates over: the `delivery_items` and
`invoices` collections. -/
structure MatcherState where
  items : List DeliveryItem
  invoices : List InvoiceRec
deriving DecidableEq, Repr

/-- Candidate predicate: `status = pending_link` and matching normalized
address (the README stresses: irrespective of the item's date or batch). -/
def isCandidate (addr : String) (d : DeliveryItem) : Bool :=
  d.status == ItemStatus.pending_link && d.normalized_address == addr

/-- Modelled from the spec: pick the candidate with the oldest `created_at`
(the first one in collection order on ties). -/
def selectOldest : List DeliveryItem → Option DeliveryItem
  | [] => none
  | d :: ds =>
    some (match selectOldest ds with
          | none => d
          | some e => if e.created_at < d.created_at then e else d)

/-- The update applied to the chosen DeliveryItem: status to `linked`, stamp
the invoice id, denormalize the invoice's product items. -/
def linkItem (inv : InvoiceRec) (d : DeliveryItem) : DeliveryItem :=
  { d with status := ItemStatus.linked
           invoice_id := some inv.id
           product_items := inv.product_items }

/-- Modelled from the spec: `link(invoice)` of the Reconciliation Matcher
(`invoice_service.py`, not under the repository sources). -/
def link (st : MatcherState) (inv : InvoiceRec) : MatcherState × LinkResult :=
  let candidates := st.items.filter (isCandidate inv.normalized_address)
  match selectOldest candidates with
  | none =>
      ({ items := st.items
         invoices := st.invoices ++ [{ inv with status := InvStatus.unlinked }] },
       LinkResult.NoCandidate)
  | some chosen =>
      ({ items := st.items.map (fun d => if d.id == chosen.id then linkItem inv d else d)
         invoices := st.invoices ++ [{ inv with status := InvStatus.invLinked }] },
       LinkResult.Linked chosen.id)

/-- Process a batch of incoming invoices in arrival order. -/
def processAll (st : MatcherState) (invs : List InvoiceRec) : MatcherState :=
  invs.foldl (fun s inv => (link s inv).1) st

/-- The invoice ids stamped on delivery items, in collection order. -/
def assignedIds (items : List DeliveryItem) : List String :=
  items.filterMap (fun d => d.invoice_id)

/-! ## DeliveryItem state machine (spec sections 3 and 4.4)

Modelled from the spec: items are created `pending_link` with no invoice id;
the matcher links them; unresolvable items move to `review_required`. -/

inductive MatcherEvent where
  | createItem (d : DeliveryItem)
  | invoiceArrives (inv : InvoiceRec)
  | review (id : String)
deriving Repr

/-- Modelled from the spec: one persisted-state transition.  `createItem`
appends a fresh item with `status = pending_link` and no `invoice_id`;
`invoiceArrives` runs the matcher; `review` moves a still-pending item to
`review_required` (a conditional update that fires only on `pending_link`). -/
def stepEvent (st : MatcherState) : MatcherEvent → MatcherState
  | .createItem d =>
      { st with items := st.items ++
          [{ d with status := ItemStatus.pending_link, invoice_id := none }] }
  | .invoiceArrives inv => (link st inv).1
  | .review i =>
      { st with items := st.items.map (fun d =>
          if d.id == i && d.status == ItemStatus.pending_link
          then { d with status := ItemStatus.review_required } else d) }

def initialState : MatcherState := { items := [], invoices := [] }

def runEvents (events : List MatcherEvent) : MatcherState :=
  events.foldl stepEvent initialState

/-! ## Customer Resolver

Modelled from the spec (section 4.3): look up the customer by normalized
address; if present, overwrite each stored field with the observed value when
the observed value is non-empty (never touching coordinates); if absent,
geocode, create with the non-empty observed fields, and persist. -/

/-- Modelled from the spec: a Customer record of the `customers` collection
(README field names: `client_name`, `commercial_name`,
`delivery_instructions`). -/
structure Customer where
  id : String
  address : String
  coordinates : Option (Int × Int)
  client_name : String
  commercial_name : String
  delivery_instructions : String
deriving DecidableEq, Repr

/-- The fields a document (delivery report line or invoice) may supply. -/
structure ObservedFields where
  client_name : Option String
  commercial_name : Option String
  delivery_instructions : Option String
deriving DecidableEq, Repr

/-- Merge-on-write for one field: a non-empty observed value overwrites, an
empty or missing observed value leaves the stored value unchanged. -/
def mergeField (old : String) : Option String → String
  | none => old
  | some s => if s = "" then old else s

/-- Merge-on-write over all mutable fields; coordinates are untouched. -/
def mergeCustomer (obs : ObservedFields) (c : Customer) : Customer :=
  { c with client_name := mergeField c.client_name obs.client_name
           commercial_name := mergeField c.commercial_name obs.commercial_name
           delivery_instructions := mergeField c.delivery_instructions obs.delivery_instructions }

/-- Lookup by normalized address. -/
def findCustomer (db : List Customer) (addr : String) : Option Customer :=
  db.find? (fun c => c.address == addr)

/-- Modelled from the spec: `resolve_or_create` of `customer_service.py` (not
under the repository sources).  `newId` is the fresh UUID and `geo` the
geocoding result used only on creation. -/
def resolve_or_create (db : List Customer) (newId addr : String)
    (obs : ObservedFields) (geo : Option (Int × Int)) : List Customer × Customer :=
  match findCustomer db addr with
  | some c =>
      let c2 := mergeCustomer obs c
      (db.map (fun d => if d.address == addr then mergeCustomer obs d else d), c2)
  | none =>
      let c : Customer :=
        { id := newId, address := addr, coordinates := geo
          client_name := mergeField "" obs.client_name
          commercial_name := mergeField "" obs.commercial_name
          delivery_instructions := mergeField "" obs.delivery_instructions }
      (db ++ [c], c)

/-- One ingestion call as seen by the customer database. -/
structure ResolveCall where
  newId : String
  addr : String
  obs : ObservedFields
  geo : Option (Int × Int)
deriving Repr

def runResolves (db : List Customer) (calls : List ResolveCall) : List Customer :=
  calls.foldl (fun d call => (resolve_or_create d call.newId call.addr call.obs call.geo).1) db

/-! ## Route Optimizer and Loading List Generator

Modelled from the spec (sections 4.5, 4.6): stops lacking coordinates are
excluded from optimization and reported separately; the remaining stops are
ordered by a bounded-time construction heuristic (embedded here as
nearest-neighbour from the depot, a representative construction heuristic —
the claims below depend only on the tour visiting exactly the valid stops,
which the spec requires of any heuristic); zero valid stops yield an empty
route as a normal value.  The loading list is the reverse of the ordered
stops excluding the depot. -/

def hasCoords (s : DeliveryItem) : Bool :=
  s.coordinates.isSome

def coordsOf (s : DeliveryItem) : Int × Int :=
  s.coordinates.getD (0, 0)

def sqDist (a b : Int × Int) : Int :=
  (a.1 - b.1) * (a.1 - b.1) + (a.2 - b.2) * (a.2 - b.2)

/-- Select the stop nearest to `cur`, returning it with the remaining stops. -/
def pickNearest (cur : Int × Int) : List DeliveryItem → Option (DeliveryItem × List DeliveryItem)
  | [] => none
  | s :: rest =>
    match pickNearest cur rest with
    | none => some (s, [])
    | some (t, restMinus) =>
      if sqDist cur (coordsOf s) ≤ sqDist cur (coordsOf t)
      then some (s, rest)
      else some (t, s :: restMinus)

/-- Nearest-neighbour tour construction, fuelled by the number of stops. -/
def nnTourAux : Nat → Int × Int → List DeliveryItem → List DeliveryItem
  | 0, _, _ => []
  | fuel + 1, cur, stops =>
    match pickNearest cur stops with
    | none => []
    | some (s, rest) => s :: nnTourAux fuel (coordsOf s) rest

/-- Result of `optimize`: the ordered tour over the geocoded stops, and the
ungeocoded stops reported separately to the caller. -/
structure OptimizeResult where
  route : List DeliveryItem
  ungeocoded : List DeliveryItem
deriving DecidableEq, Repr

/-- Modelled from the spec: `optimize(depot, stops)` of `route_optimizer.py`
(not under the repository sources).  Pre-filters the stops lacking
coordinates, reports them separately, and orders the rest; an empty valid set
yields an empty route as a normal value, never an error. -/
def optimize (depot : Int × Int) (stops : List DeliveryItem) : OptimizeResult :=
  let valid := stops.filter hasCoords
  { route := nnTourAux valid.length depot valid
    ungeocoded := stops.filter (fun s => !(hasCoords s)) }

/-- Modelled from the spec: `generate(ordered_stops)` of the Loading List
Generator — `loading_list = reverse(ordered_stops excluding depot)`; the
depot is identified by its stop id. -/
def generate (depotId : String) (ordered_stops : List DeliveryItem) : List DeliveryItem :=
  (ordered_stops.filter (fun s => s.id != depotId)).reverse

/-! ## Helper lemmas -/

lemma pressButton_eq_handleNextStop (b : TrackerButton) (L i : Nat) :
    pressButton b L i = handleNextStop L i := by
  cases b <;> rfl

lemma foldlPress_le (L : Nat) :
    ∀ (ps : List TrackerButton) (idx : Nat), idx ≤ L →
      ps.foldl (fun i b => pressButton b L i) idx ≤ L := by
  intro ps
  induction ps with
  | nil => intro idx h; simpa using h
  | cons b bs ih =>
    intro idx h
    simp only [List.foldl_cons]
    apply ih
    rw [pressButton_eq_handleNextStop]
    unfold handleNextStop
    split <;> omega

lemma pickNearest_eq_none (cur : Int × Int) :
    ∀ {l : List DeliveryItem}, pickNearest cur l = none → l = [] := by
  intro l h
  match l with
  | [] => rfl
  | s :: rest =>
    unfold pickNearest at h
    cases hr : pickNearest cur rest with
    | none => rw [hr] at h; exact absurd h (by simp)
    | some p =>
      rw [hr] at h
      obtain ⟨t, restMinus⟩ := p
      by_cases hd : sqDist cur (coordsOf s) ≤ sqDist cur (coordsOf t) <;>
        simp [hd] at h

lemma pickNearest_perm (cur : Int × Int) :
    ∀ {l : List DeliveryItem} {s : DeliveryItem} {rest : List DeliveryItem},
      pickNearest cur l = some (s, rest) → l.Perm (s :: rest) := by
  intro l
  induction l with
  | nil => intro s rest h; exact absurd h (by simp [pickNearest])
  | cons a as ih =>
    intro s rest h
    unfold pickNearest at h
    cases hr : pickNearest cur as with
    | none =>
      rw [hr] at h
      have has : as = [] := pickNearest_eq_none cur hr
      subst has
      simp only [Option.some.injEq, Prod.mk.injEq] at h
      obtain ⟨h1, h2⟩ := h
      subst h1; subst h2
      exact List.Perm.refl _
    | some p =>
      rw [hr] at h
      obtain ⟨t, restMinus⟩ := p
      dsimp only at h
      have hperm : as.Perm (t :: restMinus) := ih hr
      by_cases hd : sqDist cur (coordsOf a) ≤ sqDist cur (coordsOf t)
      · rw [if_pos hd] at h
        simp only [Option.some.injEq, Prod.mk.injEq] at h
        obtain ⟨h1, h2⟩ := h
        subst h1; subst h2
        exact List.Perm.refl _
      · rw [if_neg hd] at h
        simp only [Option.some.injEq, Prod.mk.injEq] at h
        obtain ⟨h1, h2⟩ := h
        subst h1; subst h2
        exact (hperm.cons a).trans (List.Perm.swap t a restMinus)

lemma nnTourAux_perm :
    ∀ (fuel : Nat) (cur : Int × Int) (l : List DeliveryItem), l.length ≤ fuel →
      (nnTourAux fuel cur l).Perm l := by
  intro fuel
  induction fuel with
  | zero =>
    intro cur l h
    have hl : l = [] := List.eq_nil_of_length_eq_zero (Nat.le_zero.mp h)
    subst hl
    simp [nnTourAux]
  | succ n ih =>
    intro cur l h
    unfold nnTourAux
    cases hr : pickNearest cur l with
    | none =>
      have hl : l = [] := pickNearest_eq_none cur hr
      subst hl
      simp
    | some p =>
      obtain ⟨s, rest⟩ := p
      dsimp only
      have hperm : l.Perm (s :: rest) := pickNearest_perm cur hr
      have hlen : l.length = rest.length + 1 := by
        simpa using hperm.length_eq
      have hrest : rest.length ≤ n := by omega
      exact ((ih (coordsOf s) rest hrest).cons s).trans hperm.symm

lemma mergeCustomer_address (obs : ObservedFields) (c : Customer) :
    (mergeCustomer obs c).address = c.address := rfl

lemma mergeCustomer_coordinates (obs : ObservedFields) (c : Customer) :
    (mergeCustomer obs c).coordinates = c.coordinates := rfl

lemma findCustomer_map (db : List Customer) (addr : String) (f : Customer → Customer)
    (hf : ∀ c, (f c).address = c.address) :
    findCustomer (db.map f) addr = (findCustomer db addr).map f := by
  unfold findCustomer
  rw [List.find?_map]
  have hpred : ((fun c : Customer => c.address == addr) ∘ f) =
      (fun c : Customer => c.address == addr) := by
    funext c
    simp [Function.comp, hf]
  rw [hpred]

lemma findCustomer_append_left (db x : List Customer) (addr : String) (c : Customer)
    (h : findCustomer db addr = some c) :
    findCustomer (db ++ x) addr = some c := by
  unfold findCustomer at h ⊢
  rw [List.find?_append, h]
  rfl

/-- One `resolve_or_create` call never changes the coordinates or the address
of a customer that already exists. -/
lemma resolve_preserves (d : List Customer) (addr : String) (c' : Customer)
    (call : ResolveCall) (h : findCustomer d addr = some c') :
    ∃ c2, findCustomer (resolve_or_create d call.newId call.addr call.obs call.geo).1 addr
            = some c2
      ∧ c2.coordinates = c'.coordinates ∧ c2.address = c'.address := by
  unfold resolve_or_create
  cases hf : findCustomer d call.addr with
  | some c0 =>
    dsimp only
    rw [findCustomer_map _ _ _ (fun c => by
      by_cases hc : (c.address == call.addr) = true <;>
        simp [hc, mergeCustomer_address]), h]
    by_cases hc : (c'.address == call.addr) = true <;>
      exact ⟨_, rfl, by simp [hc, mergeCustomer_coordinates], by simp [hc, mergeCustomer_address]⟩
  | none =>
    dsimp only
    exact ⟨c', findCustomer_append_left _ _ _ _ h, rfl, rfl⟩

/-- Coordinates set at creation survive any later sequence of
`resolve_or_create` calls. -/
lemma runResolves_coords (calls : List ResolveCall) :
    ∀ (db : List Customer) (addr : String) (c : Customer),
      findCustomer db addr = some c →
      ∃ c2, findCustomer (runResolves db calls) addr = some c2
        ∧ c2.coordinates = c.coordinates := by
  induction calls with
  | nil => intro db addr c h; exact ⟨c, h, rfl⟩
  | cons call rest ih =>
    intro db addr c h
    obtain ⟨c2, h2, hco, _⟩ := resolve_preserves db addr c call h
    obtain ⟨c3, h3, hco3⟩ := ih _ addr c2 h2
    exact ⟨c3, h3, hco3.trans hco⟩

lemma selectOldest_of_ne_nil (l : List DeliveryItem) (h : l ≠ []) :
    ∃ d, selectOldest l = some d := by
  cases l with
  | nil => exact absurd rfl h
  | cons a as => exact ⟨_, rfl⟩

lemma selectOldest_mem :
    ∀ (l : List DeliveryItem) (d : DeliveryItem), selectOldest l = some d → d ∈ l := by
  intro l
  induction l with
  | nil => intro d h; exact absurd h (by simp [selectOldest])
  | cons a as ih =>
    intro d h
    simp only [selectOldest, Option.some.injEq] at h
    cases hs : selectOldest as with
    | none =>
      rw [hs] at h
      dsimp only at h
      subst h
      simp
    | some e =>
      rw [hs] at h
      dsimp only at h
      by_cases hlt : e.created_at < a.created_at
      · rw [if_pos hlt] at h
        subst h
        exact List.mem_cons_of_mem a (ih e hs)
      · rw [if_neg hlt] at h
        subst h
        simp

lemma selectOldest_le :
    ∀ (l : List DeliveryItem) (d : DeliveryItem), selectOldest l = some d →
      ∀ e ∈ l, d.created_at ≤ e.created_at := by
  intro l
  induction l with
  | nil => intro d h; exact absurd h (by simp [selectOldest])
  | cons a as ih =>
    intro d h e he
    simp only [selectOldest, Option.some.injEq] at h
    cases hs : selectOldest as with
    | none =>
      have has : as = [] := by
        cases as with
        | nil => rfl
        | cons b bs => exact absurd hs (by simp [selectOldest])
      rw [hs] at h
      dsimp only at h
      subst h
      subst has
      have he' : e = a := by simpa using he
      simp [he']
    | some m =>
      rw [hs] at h
      dsimp only at h
      rcases List.mem_cons.mp he with hea | hee
      · by_cases hlt : m.created_at < a.created_at
        · rw [if_pos hlt] at h
          subst h
          rw [hea]
          omega
        · rw [if_neg hlt] at h
          subst h
          rw [hea]
      · by_cases hlt : m.created_at < a.created_at
        · rw [if_pos hlt] at h
          subst h
          exact ih m hs e hee
        · rw [if_neg hlt] at h
          subst h
          have := ih m hs e hee
          omega

lemma exists_splice_of_mem_nodup (l : List DeliveryItem) (c : DeliveryItem)
    (hc : c ∈ l) (hnd : (l.map (fun d => d.id)).Nodup) :
    ∃ l₁ l₂, l = l₁ ++ c :: l₂ ∧ ∀ d ∈ l₁ ++ l₂, d.id ≠ c.id := by
  obtain ⟨l₁, l₂, rfl⟩ := List.append_of_mem hc
  refine ⟨l₁, l₂, rfl, ?_⟩
  intro d hd hdid
  rw [List.map_append, List.map_cons] at hnd
  rcases List.mem_append.mp hd with h1 | h2
  · have hmem : c.id ∈ l₁.map (fun d => d.id) := by
      rw [← hdid]
      exact List.mem_map_of_mem _ h1
    exact (List.nodup_append.mp hnd).2.2 hmem (by simp)
  · have hcons := (List.nodup_append.mp hnd).2.1
    have hmem : c.id ∈ l₂.map (fun d => d.id) := by
      rw [← hdid]
      exact List.mem_map_of_mem _ h2
    exact (List.nodup_cons.mp hcons).1 hmem

lemma map_id_of_not_target (g : DeliveryItem → DeliveryItem) (tid : String) :
    ∀ (l : List DeliveryItem), (∀ d ∈ l, d.id ≠ tid) →
      l.map (fun d => if d.id == tid then g d else d) = l := by
  intro l
  induction l with
  | nil => intro _; rfl
  | cons a as ih =>
    intro h
    have ha : (a.id == tid) = false := by
      simpa using h a (by simp)
    simp only [List.map_cons, ha]
    rw [ih (fun d hd => h d (List.mem_cons_of_mem a hd))]
    simp

lemma map_update_splice (l₁ l₂ : List DeliveryItem) (c : DeliveryItem)
    (f : DeliveryItem → DeliveryItem)
    (h : ∀ d ∈ l₁ ++ l₂, d.id ≠ c.id) :
    (l₁ ++ c :: l₂).map (fun d => if d.id == c.id then f d else d)
      = l₁ ++ f c :: l₂ := by
  rw [List.map_append, List.map_cons]
  rw [map_id_of_not_target f c.id l₁
    (fun d hd => h d (List.mem_append.mpr (Or.inl hd)))]
  rw [map_id_of_not_target f c.id l₂
    (fun d hd => h d (List.mem_append.mpr (Or.inr hd)))]
  simp

/-- Batch reconciliation: starting from items at one address that are all
pending-or-linked (pending ones carrying no invoice id) with distinct ids,
processing as many invoices for that address as there are pending items
links every item, and the stamped invoice ids are exactly the ids of the old
assignments plus the processed invoices. -/
lemma processAll_spec :
    ∀ (invs : List InvoiceRec) (st : MatcherState) (addr : String),
      (∀ d ∈ st.items, d.normalized_address = addr ∧
        (d.status = ItemStatus.pending_link ∨ d.status = ItemStatus.linked) ∧
        (d.status = ItemStatus.pending_link → d.invoice_id = none)) →
      (st.items.map (fun d => d.id)).Nodup →
      (∀ i ∈ invs, i.normalized_address = addr) →
      (st.items.filter (isCandidate addr)).length = invs.length →
      (∀ d ∈ (processAll st invs).items, d.status = ItemStatus.linked) ∧
      (assignedIds (processAll st invs).items).Perm
        (assignedIds st.items ++ invs.map (fun i => i.id)) := by
  intro invs
  induction invs with
  | nil =>
    intro st addr hitems hnd hinvs hlen
    simp only [processAll, List.foldl_nil]
    constructor
    · intro d hd
      obtain ⟨haddr, hstat, _⟩ := hitems d hd
      rcases hstat with hp | hl
      · exfalso
        have hfe : st.items.filter (isCandidate addr) = [] :=
          List.length_eq_zero.mp (by simpa using hlen)
        have hdm : d ∈ st.items.filter (isCandidate addr) :=
          List.mem_filter.mpr ⟨hd, by simp [isCandidate, hp, haddr]⟩
        rw [hfe] at hdm
        simp at hdm
      · exact hl
    · simp
  | cons inv rest ih =>
    intro st addr hitems hnd hinvs hlen
    have hinva : inv.normalized_address = addr := hinvs inv (by simp)
    have hlen1 : (st.items.filter (isCandidate addr)).length = rest.length + 1 := by
      simpa using hlen
    have hcne : st.items.filter (isCandidate addr) ≠ [] := by
      intro hz
      rw [hz] at hlen1
      simp at hlen1
    obtain ⟨chosen, hsel⟩ := selectOldest_of_ne_nil _ hcne
    have hcm := selectOldest_mem _ _ hsel
    have hci : chosen ∈ st.items := (List.mem_filter.mp hcm).1
    have hcc : isCandidate addr chosen = true := (List.mem_filter.mp hcm).2
    have hcp : chosen.status = ItemStatus.pending_link := by
      have h0 := hcc
      simp [isCandidate] at h0
      exact h0.1
    have hca : chosen.normalized_address = addr := by
      have h0 := hcc
      simp [isCandidate] at h0
      exact h0.2
    have hcnone : chosen.invoice_id = none := (hitems chosen hci).2.2 hcp
    obtain ⟨l₁, l₂, hspl, hne⟩ := exists_splice_of_mem_nodup st.items chosen hci hnd
    have hstep : (link st inv).1.items =
        st.items.map (fun d => if d.id == chosen.id then linkItem inv d else d) := by
      simp [link, hinva, hsel]
    have hupd : (link st inv).1.items = l₁ ++ linkItem inv chosen :: l₂ := by
      rw [hstep, hspl, map_update_splice l₁ l₂ chosen _ hne]
    have hPA : processAll st (inv :: rest) = processAll (link st inv).1 rest := rfl
    have hitems' : ∀ d ∈ (link st inv).1.items, d.normalized_address = addr ∧
        (d.status = ItemStatus.pending_link ∨ d.status = ItemStatus.linked) ∧
        (d.status = ItemStatus.pending_link → d.invoice_id = none) := by
      intro d hd
      rw [hupd] at hd
      rcases List.mem_append.mp hd with h1 | h2
      · exact hitems d (hspl ▸ List.mem_append.mpr (Or.inl h1))
      · rcases List.mem_cons.mp h2 with hdc | h3
        · subst hdc
          refine ⟨by simpa [linkItem] using hca, Or.inr (by simp [linkItem]), ?_⟩
          intro hp
          simp [linkItem] at hp
        · exact hitems d (hspl ▸ List.mem_append.mpr (Or.inr (List.mem_cons_of_mem _ h3)))
    have hnd' : ((link st inv).1.items.map (fun d => d.id)).Nodup := by
      rw [hupd]
      have hids : (l₁ ++ linkItem inv chosen :: l₂).map (fun d => d.id)
          = (l₁ ++ chosen :: l₂).map (fun d => d.id) := by
        simp [List.map_append, linkItem]
      rw [hids, ← hspl]
      exact hnd
    have hinvs' : ∀ i ∈ rest, i.normalized_address = addr :=
      fun i hi => hinvs i (List.mem_cons_of_mem _ hi)
    have hnotc : isCandidate addr (linkItem inv chosen) = false := by
      simp [isCandidate, linkItem]
    have e1 : st.items.filter (isCandidate addr) =
        l₁.filter (isCandidate addr) ++ chosen :: l₂.filter (isCandidate addr) := by
      rw [hspl]
      simp [List.filter_append, List.filter_cons, hcc]
    have e2 : (l₁ ++ linkItem inv chosen :: l₂).filter (isCandidate addr) =
        l₁.filter (isCandidate addr) ++ l₂.filter (isCandidate addr) := by
      simp [List.filter_append, List.filter_cons, hnotc]
    have hlen' : ((link st inv).1.items.filter (isCandidate addr)).length = rest.length := by
      rw [hupd, e2]
      rw [e1] at hlen1
      simp only [List.length_append, List.length_cons] at hlen1 ⊢
      omega
    obtain ⟨hall, hperm⟩ := ih (link st inv).1 addr hitems' hnd' hinvs' hlen'
    have hassign' : assignedIds (link st inv).1.items =
        assignedIds l₁ ++ inv.id :: assignedIds l₂ := by
      rw [hupd]
      simp [assignedIds, List.filterMap_append, linkItem]
    have hassign : assignedIds st.items = assignedIds l₁ ++ assignedIds l₂ := by
      rw [hspl]
      simp [assignedIds, List.filterMap_append, hcnone]
    constructor
    · rw [hPA]
      exact hall
    · rw [hPA, hassign]
      have hmid : ((assignedIds l₁ ++ inv.id :: assignedIds l₂) ++
            rest.map (fun i => i.id)).Perm
          ((assignedIds l₁ ++ assignedIds l₂) ++
            ((inv :: rest).map (fun i => i.id))) := by
        simp only [List.map_cons, List.append_assoc, List.cons_append]
        exact List.Perm.append_left _ List.perm_middle.symm
      exact (hperm.trans (by rw [hassign'])).trans hmid

/-- The DeliveryItem data-model invariant: `invoice_id` is set iff
`status = linked`. -/
def itemInv (d : DeliveryItem) : Prop :=
  d.invoice_id.isSome = true ↔ d.status = ItemStatus.linked

/-- The items after a `link` call: either unchanged or conditionally updated
at the chosen candidate. -/
lemma link_fst_items (st : MatcherState) (inv : InvoiceRec) :
    (link st inv).1.items = st.items
  ∨ ∃ chosen : DeliveryItem,
      (link st inv).1.items =
        st.items.map (fun d => if d.id == chosen.id then linkItem inv d else d) := by
  cases h : selectOldest (st.items.filter (isCandidate inv.normalized_address)) with
  | none => exact Or.inl (by simp [link, h])
  | some chosen => exact Or.inr ⟨chosen, by simp [link, h]⟩

lemma stepEvent_inv (st : MatcherState) (e : MatcherEvent)
    (h : ∀ d ∈ st.items, itemInv d) : ∀ d ∈ (stepEvent st e).items, itemInv d := by
  cases e with
  | createItem d0 =>
    intro d hd
    simp only [stepEvent, List.mem_append, List.mem_singleton] at hd
    rcases hd with hd | hd
    · exact h d hd
    · subst hd; simp [itemInv]
  | invoiceArrives inv =>
    intro d hd
    simp only [stepEvent] at hd
    rcases link_fst_items st inv with heq | ⟨chosen, heq⟩
    · rw [heq] at hd; exact h d hd
    · rw [heq] at hd
      obtain ⟨d0, hd0, rfl⟩ := List.mem_map.mp hd
      by_cases hc : (d0.id == chosen.id) = true
      · simp [hc, linkItem, itemInv]
      · simpa [hc] using h d0 hd0
  | review i =>
    intro d hd
    simp only [stepEvent] at hd
    obtain ⟨d0, hd0, rfl⟩ := List.mem_map.mp hd
    have h0 := h d0 hd0
    by_cases hc : (d0.id == i && d0.status == ItemStatus.pending_link) = true
    · have hp : d0.status = ItemStatus.pending_link := by
        simp only [Bool.and_eq_true, beq_iff_eq] at hc
        exact hc.2
      have hnone : d0.invoice_id.isSome = false := by
        cases hio : d0.invoice_id.isSome with
        | false => rfl
        | true =>
          have hlk := h0.mp hio
          rw [hp] at hlk
          exact absurd hlk (by simp)
      simp [hc, itemInv, hnone]
    · simpa [hc] using h0

lemma runEvents_inv :
    ∀ (events : List MatcherEvent) (st : MatcherState),
      (∀ d ∈ st.items, itemInv d) →
      ∀ d ∈ (events.foldl stepEvent st).items, itemInv d := by
  intro events
  induction events with
  | nil => intro st h; simpa using h
  | cons e rest ih =>
    intro st h
    simp only [List.foldl_cons]
    exact ih (stepEvent st e) (stepEvent_inv st e h)

lemma stepEvent_keeps_linked (st : MatcherState) (e : MatcherEvent) (k : Nat)
    (d : DeliveryItem) (hk : st.items[k]? = some d)
    (hl : d.status = ItemStatus.linked) :
    ∃ d2, (stepEvent st e).items[k]? = some d2 ∧ d2.status = ItemStatus.linked := by
  have hlt : k < st.items.length := by
    rcases List.getElem?_eq_some.mp hk with ⟨hb, _⟩
    exact hb
  cases e with
  | createItem d0 =>
    refine ⟨d, ?_, hl⟩
    simp only [stepEvent]
    rw [List.getElem?_append, if_pos hlt]
    exact hk
  | invoiceArrives inv =>
    rcases link_fst_items st inv with heq | ⟨chosen, heq⟩
    · exact ⟨d, by simp only [stepEvent, heq]; exact hk, hl⟩
    · refine ⟨if d.id == chosen.id then linkItem inv d else d, ?_, ?_⟩
      · simp only [stepEvent, heq, List.getElem?_map, hk]
        rfl
      · by_cases hc : (d.id == chosen.id) = true <;> simp [hc, linkItem, hl]
  | review i =>
    refine ⟨d, ?_, hl⟩
    simp only [stepEvent, List.getElem?_map, hk]
    simp
    intro _ h2
    rw [hl] at h2
    exact absurd h2 (by simp)

lemma foldl_keeps_linked :
    ∀ (more : List MatcherEvent) (st : MatcherState) (k : Nat) (d : DeliveryItem),
      st.items[k]? = some d → d.status = ItemStatus.linked →
      ∃ d2, (more.foldl stepEvent st).items[k]? = some d2
        ∧ d2.status = ItemStatus.linked := by
  intro more
  induction more with
  | nil => intro st k d hk hl; exact ⟨d, hk, hl⟩
  | cons e rest ih =>
    intro st k d hk hl
    obtain ⟨d2, hk2, hl2⟩ := stepEvent_keeps_linked st e k d hk hl
    simpa only [List.foldl_cons] using ih (stepEvent st e) k d2 hk2 hl2

/-! ## Concrete records used to evaluate the theorems -/

def c3StopA : MapPoint :=
  { coordinates := some { latitude := JsNum.num 1, longitude := JsNum.num 2 }
    delivery_address := some "a", parsed_data_address := none
    commercial_entity := some "shopA", invoice_id := "i1" }

def c3StopB : MapPoint :=
  { coordinates := some { latitude := JsNum.num 3, longitude := JsNum.num 4 }
    delivery_address := some "b", parsed_data_address := none
    commercial_entity := some "shopB", invoice_id := "i2" }

def c9ZeroLatPoint : MapPoint :=
  { coordinates := some { latitude := JsNum.num 0, longitude := JsNum.num 5 }
    delivery_address := none, parsed_data_address := none
    commercial_entity := none, invoice_id := "i9" }

def c2ItemA : DeliveryItem :=
  { id := "a", normalized_address := "x", commercial_entity := "e1", package_count := 1
    status := ItemStatus.pending_link, invoice_id := none, product_items := []
    coordinates := some (0, 0), created_at := 1 }

def c2ItemB : DeliveryItem :=
  { id := "b", normalized_address := "y", commercial_entity := "e2", package_count := 2
    status := ItemStatus.pending_link, invoice_id := none, product_items := []
    coordinates := some (1, 1), created_at := 2 }

def c5NoGeo : DeliveryItem :=
  { id := "n", normalized_address := "z", commercial_entity := "e3", package_count := 1
    status := ItemStatus.pending_link, invoice_id := none, product_items := []
    coordinates := none, created_at := 3 }

def c4Geo : DeliveryItem :=
  { id := "y", normalized_address := "addr y", commercial_entity := "ey", package_count := 1
    status := ItemStatus.pending_link, invoice_id := none, product_items := []
    coordinates := some (2, 3), created_at := 1 }

def c4NoGeo : DeliveryItem :=
  { id := "x", normalized_address := "addr x", commercial_entity := "ex", package_count := 1
    status := ItemStatus.pending_link, invoice_id := none, product_items := []
    coordinates := none, created_at := 2 }

def c4NoCoordPoint : MapPoint :=
  { coordinates := none, delivery_address := some "addr x", parsed_data_address := none
    commercial_entity := some "ex", invoice_id := "i4" }

def c7Customer : Customer :=
  { id := "u1", address := "calle 1", coordinates := some (10, 20)
    client_name := "old legal", commercial_name := "old shop"
    delivery_instructions := "ring twice" }

def c7Obs : ObservedFields :=
  { client_name := some "new legal", commercial_name := none
    delivery_instructions := some "" }

def c7LaterCall : ResolveCall :=
  { newId := "u2", addr := "calle 1"
    obs := { client_name := none, commercial_name := some "newer shop"
             delivery_instructions := none }
    geo := some (99, 99) }

def c6Item : DeliveryItem :=
  { id := "d1", normalized_address := "a", commercial_entity := "e", package_count := 1
    status := ItemStatus.pending_link, invoice_id := none, product_items := []
    coordinates := some (0, 0), created_at := 1 }

def c6Inv : InvoiceRec :=
  { id := "f1", normalized_address := "a", product_items := ["p"]
    status := InvStatus.unlinked, created_at := 5 }

def c6Events : List MatcherEvent :=
  [MatcherEvent.createItem c6Item, MatcherEvent.invoiceArrives c6Inv]

def c1Item1 : DeliveryItem :=
  { id := "d1", normalized_address := "a", commercial_entity := "e1", package_count := 1
    status := ItemStatus.pending_link, invoice_id := none, product_items := []
    coordinates := some (0, 0), created_at := 1 }

def c1Item2 : DeliveryItem :=
  { id := "d2", normalized_address := "a", commercial_entity := "e2", package_count := 2
    status := ItemStatus.pending_link, invoice_id := none, product_items := []
    coordinates := some (1, 1), created_at := 2 }

def c1St : MatcherState := { items := [c1Item1, c1Item2], invoices := [] }

def c1InvA : InvoiceRec :=
  { id := "fa", normalized_address := "a", product_items := ["pa"]
    status := InvStatus.unlinked, created_at := 10 }

def c1InvB : InvoiceRec :=
  { id := "fb", normalized_address := "a", product_items := ["pb"]
    status := InvStatus.unlinked, created_at := 11 }

/-! ## Claims -/

/-- Claim C2: for every route, `generate` returns exactly the reverse of the
route with the depot excluded; it is a pure total function whose only edge
case is empty input, which yields an empty list; when the route contains no
depot stop the loading list is the full reverse of the route, and its first
element is the last stop visited (LIFO). -/
theorem C2_generate_reverse (depotId : String) (route : List DeliveryItem) :
    generate depotId route = (route.filter (fun s => s.id != depotId)).reverse
  ∧ (generate depotId route).reverse = route.filter (fun s => s.id != depotId)
  ∧ generate depotId ([] : List DeliveryItem) = []
  ∧ ((∀ s ∈ route, s.id ≠ depotId) → generate depotId route = route.reverse)
  ∧ (generate depotId route).head? = (route.filter (fun s => s.id != depotId)).getLast? := by
  refine ⟨rfl, by simp [generate], rfl, ?_, ?_⟩
  · intro h
    unfold generate
    rw [List.filter_eq_self.mpr]
    intro a ha
    simpa using h a ha
  · simp [generate, List.head?_reverse]

/-- Witness for C2 at a concrete two-stop route with no depot stop. -/
theorem C2_generate_reverse_witness :
    (∀ s ∈ [c2ItemA, c2ItemB], s.id ≠ "depot")
  ∧ generate "depot" [c2ItemA, c2ItemB] = [c2ItemB, c2ItemA] := by
  have hdep : ∀ s ∈ [c2ItemA, c2ItemB], s.id ≠ "depot" := by decide
  have h := (C2_generate_reverse "depot" [c2ItemA, c2ItemB]).2.2.2.1 hdep
  exact ⟨hdep, h.trans (by decide)⟩

/-- Claim C1: for every invoice, if the set of pending candidates at its
normalized address is empty the invoice is stored unlinked and the result is
`NoCandidate` with the items untouched; if it is non-empty the invoice is
linked to exactly one candidate with the oldest `created_at`, irrespective of
its age or batch; and after N invoices arrive for N pending items at one
address, all N items are linked and the stamped invoice ids are exactly the N
distinct invoice ids — no item is linked to two invoices. -/
theorem C1_oldest_pending_link (st : MatcherState) (inv : InvoiceRec)
    (st0 : MatcherState) (invs : List InvoiceRec) (addr : String) :
    (st.items.filter (isCandidate inv.normalized_address) = [] →
      (link st inv).2 = LinkResult.NoCandidate
      ∧ (link st inv).1.items = st.items
      ∧ (link st inv).1.invoices
          = st.invoices ++ [{ inv with status := InvStatus.unlinked }])
  ∧ (st.items.filter (isCandidate inv.normalized_address) ≠ [] →
      ∃ chosen : DeliveryItem,
        chosen ∈ st.items.filter (isCandidate inv.normalized_address)
        ∧ (∀ d ∈ st.items.filter (isCandidate inv.normalized_address),
            chosen.created_at ≤ d.created_at)
        ∧ (link st inv).2 = LinkResult.Linked chosen.id
        ∧ (link st inv).1.items
            = st.items.map (fun d => if d.id == chosen.id then linkItem inv d else d)
        ∧ (link st inv).1.invoices
            = st.invoices ++ [{ inv with status := InvStatus.invLinked }])
  ∧ ((∀ d ∈ st0.items, d.normalized_address = addr
        ∧ d.status = ItemStatus.pending_link ∧ d.invoice_id = none) →
      (st0.items.map (fun d => d.id)).Nodup →
      (∀ i ∈ invs, i.normalized_address = addr) →
      st0.items.length = invs.length →
      (∀ d ∈ (processAll st0 invs).items, d.status = ItemStatus.linked)
      ∧ (assignedIds (processAll st0 invs).items).Perm
          (invs.map (fun i => i.id))) := by
  refine ⟨?_, ?_, ?_⟩
  · intro hempty
    have hsel : selectOldest (st.items.filter (isCandidate inv.normalized_address))
        = none := by
      rw [hempty]
      rfl
    exact ⟨by simp [link, hsel], by simp [link, hsel], by simp [link, hsel]⟩
  · intro hne
    obtain ⟨chosen, hsel⟩ := selectOldest_of_ne_nil _ hne
    exact ⟨chosen, selectOldest_mem _ _ hsel, selectOldest_le _ _ hsel,
      by simp [link, hsel], by simp [link, hsel], by simp [link, hsel]⟩
  · intro hit hnd hinvs hlen
    have hgen : ∀ d ∈ st0.items, d.normalized_address = addr ∧
        (d.status = ItemStatus.pending_link ∨ d.status = ItemStatus.linked) ∧
        (d.status = ItemStatus.pending_link → d.invoice_id = none) := by
      intro d hd
      obtain ⟨h1, h2, h3⟩ := hit d hd
      exact ⟨h1, Or.inl h2, fun _ => h3⟩
    have hfl : st0.items.filter (isCandidate addr) = st0.items := by
      apply List.filter_eq_self.mpr
      intro d hd
      obtain ⟨h1, h2, _⟩ := hit d hd
      simp [isCandidate, h1, h2]
    have hlen' : (st0.items.filter (isCandidate addr)).length = invs.length := by
      rw [hfl]
      exact hlen
    obtain ⟨hall, hperm⟩ := processAll_spec invs st0 addr hgen hnd hinvs hlen'
    refine ⟨hall, ?_⟩
    have hass0 : assignedIds st0.items = [] := by
      apply List.filterMap_eq_nil_iff.mpr
      intro d hd
      exact (hit d hd).2.2
    simpa [hass0] using hperm

/-- Witness for C1: two pending items at address a (created in this order)
and two invoices for a — both items end up linked and the assigned invoice
ids are exactly the two distinct invoice ids. -/
theorem C1_oldest_pending_link_witness :
    (∀ d ∈ (processAll c1St [c1InvA, c1InvB]).items, d.status = ItemStatus.linked)
  ∧ (assignedIds (processAll c1St [c1InvA, c1InvB]).items).Perm
      ([c1InvA, c1InvB].map (fun i => i.id)) := by
  have h := (C1_oldest_pending_link c1St c1InvA c1St [c1InvA, c1InvB] "a").2.2
  exact h (by decide) (by decide) (by decide) (by decide)

/-- Claim C3 counterexample: with two geocoded stops and the street-routing
collaborator unavailable (`streetLevelPolyline` absent), RouteMap renders a
straight-line polyline through the stop coordinates instead of omitting the
polyline. -/
theorem C3_counterexample :
    (renderRouteMap [c3StopA, c3StopB] none).polyline =
      [(JsNum.num 1, JsNum.num 2), (JsNum.num 3, JsNum.num 4)]
  ∧ (renderRouteMap [c3StopA, c3StopB] none).polyline ≠ [] := by
  constructor <;> decide

/-- Claim C3 (amended): street-level enrichment never changes the markers or
their order — the rendered stops are identical whatever polyline input is
supplied; when the street-routing collaborator is unavailable (absent or
empty polyline) the ordered stops are still the output, and a straight-line
polyline through the ordered stop coordinates is rendered in its place when
there is more than one location (with at most one location the polyline is
empty). -/
theorem C3_enrichment_frame (rd : List MapPoint)
    (slp slp2 : Option (List (JsNum × JsNum))) :
    (renderRouteMap rd slp).markers = (renderRouteMap rd slp2).markers
  ∧ (renderRouteMap rd none).polyline =
      (if 1 < (renderRouteMap rd none).markers.length
       then (renderRouteMap rd none).markers.map (fun l => (l.lat, l.lon))
       else [])
  ∧ (renderRouteMap rd (some [])).polyline = (renderRouteMap rd none).polyline := by
  refine ⟨rfl, ?_, rfl⟩
  simp [renderRouteMap, polylinePositions, straightLine]

/-- Claim C4: `optimize` excludes every stop lacking coordinates from route
optimization and reports each excluded stop separately to the caller in the
`ungeocoded` field of the result rather than silently dropping it; the
computed route is a permutation of exactly the stops that have coordinates;
and the RouteMap frontend likewise excludes a stop without truthy coordinates
from the rendered route. -/
theorem C4_prefilter_reported (depot : Int × Int) (stops : List DeliveryItem)
    (p : MapPoint) (l₁ l₂ : List MapPoint)
    (hp : hasTruthyCoords p = false) :
    (optimize depot stops).route.Perm (stops.filter hasCoords)
  ∧ (∀ s ∈ (optimize depot stops).route, hasCoords s = true)
  ∧ (optimize depot stops).ungeocoded = stops.filter (fun s => !(hasCoords s))
  ∧ locationsOf (l₁ ++ p :: l₂) = locationsOf (l₁ ++ l₂) := by
  have hperm : (optimize depot stops).route.Perm (stops.filter hasCoords) := by
    simpa [optimize] using
      nnTourAux_perm (stops.filter hasCoords).length depot (stops.filter hasCoords) le_rfl
  refine ⟨hperm, ?_, rfl, ?_⟩
  · intro s hs
    exact List.of_mem_filter (hperm.mem_iff.mp hs)
  · simp [locationsOf, List.filter_append, List.filter_cons, hp]

/-- Witness for C4: a two-stop report where stop x has no geocode — the route
covers only stop y and x is reported in `ungeocoded`. -/
theorem C4_prefilter_reported_witness :
    hasTruthyCoords c4NoCoordPoint = false
  ∧ (optimize (0, 0) [c4Geo, c4NoGeo]).route.Perm ([c4Geo, c4NoGeo].filter hasCoords)
  ∧ (optimize (0, 0) [c4Geo, c4NoGeo]).ungeocoded = [c4NoGeo] := by
  have h := C4_prefilter_reported (0, 0) [c4Geo, c4NoGeo] c4NoCoordPoint [] [] (by decide)
  exact ⟨by decide, h.1, h.2.2.1.trans (by decide)⟩

/-- Claim C5: when the set of valid (geocoded) stops is empty, `optimize`
returns an empty route as a normal result value (it is a total function, so
the batch cannot fail), and `generate` applied to that empty route returns an
empty loading list; the empty stop list is a special case of this. -/
theorem C5_empty_route (depot : Int × Int) (depotId : String)
    (stops : List DeliveryItem) (h : stops.filter hasCoords = []) :
    (optimize depot stops).route = []
  ∧ generate depotId (optimize depot stops).route = []
  ∧ (optimize depot ([] : List DeliveryItem)).route = []
  ∧ (optimize depot ([] : List DeliveryItem)).ungeocoded = [] := by
  have hr : (optimize depot stops).route = [] := by
    simp [optimize, h, nnTourAux]
  exact ⟨hr, by simp [hr, generate], by simp [optimize, nnTourAux], by simp [optimize]⟩

/-- Witness for C5 at a one-stop list whose only stop lacks coordinates. -/
theorem C5_empty_route_witness :
    [c5NoGeo].filter hasCoords = []
  ∧ (optimize (0, 0) [c5NoGeo]).route = []
  ∧ generate "depot" (optimize (0, 0) [c5NoGeo]).route = [] := by
  have h : [c5NoGeo].filter hasCoords = [] := by decide
  have h2 := C5_empty_route (0, 0) "depot" [c5NoGeo] h
  exact ⟨h, h2.1, h2.2.1⟩

/-- Claim C6: in every state reachable by the persisted-state operations
(item creation, invoice reconciliation, review marking), every DeliveryItem
has `invoice_id` set if and only if its `status` is `linked`; and once an
item's status is `linked`, no later sequence of operations ever changes it
back to `pending_link` or `review_required`. -/
theorem C6_linked_invariant (events more : List MatcherEvent) (k : Nat)
    (d : DeliveryItem) :
    (∀ d2 ∈ (runEvents events).items,
        (d2.invoice_id.isSome = true ↔ d2.status = ItemStatus.linked))
  ∧ ((runEvents events).items[k]? = some d → d.status = ItemStatus.linked →
      ∃ d2, (more.foldl stepEvent (runEvents events)).items[k]? = some d2
        ∧ d2.status = ItemStatus.linked) := by
  constructor
  · intro d2 hd2
    exact runEvents_inv events initialState (by simp [initialState]) d2 hd2
  · intro hk hl
    exact foldl_keeps_linked more _ k d hk hl

/-- Witness for C6: after creating a pending item and reconciling an invoice
against it, the item is linked and a later review event leaves it linked. -/
theorem C6_linked_invariant_witness :
    ∃ d2, (([MatcherEvent.review "d1"]).foldl stepEvent (runEvents c6Events)).items[0]?
        = some d2 ∧ d2.status = ItemStatus.linked := by
  have h := (C6_linked_invariant c6Events [MatcherEvent.review "d1"] 0
    (linkItem c6Inv c6Item)).2
  exact h (by decide) (by decide)

/-- Claim C7: for an existing Customer, `resolve_or_create` overwrites each
stored field with the observed value exactly when the observed value is
non-empty (last-write-wins per field), leaves it unchanged when the observed
value is empty or missing, and never modifies the coordinates — which, once
set at creation, survive every later `resolve_or_create` call. -/
theorem C7_merge_on_write (db : List Customer) (newId addr : String)
    (obs : ObservedFields) (geo : Option (Int × Int)) (c : Customer)
    (calls : List ResolveCall)
    (h : findCustomer db addr = some c) :
    (∀ s, obs.client_name = some s → s ≠ "" →
        (resolve_or_create db newId addr obs geo).2.client_name = s)
  ∧ ((obs.client_name = none ∨ obs.client_name = some "") →
        (resolve_or_create db newId addr obs geo).2.client_name = c.client_name)
  ∧ (∀ s, obs.commercial_name = some s → s ≠ "" →
        (resolve_or_create db newId addr obs geo).2.commercial_name = s)
  ∧ ((obs.commercial_name = none ∨ obs.commercial_name = some "") →
        (resolve_or_create db newId addr obs geo).2.commercial_name = c.commercial_name)
  ∧ (∀ s, obs.delivery_instructions = some s → s ≠ "" →
        (resolve_or_create db newId addr obs geo).2.delivery_instructions = s)
  ∧ ((obs.delivery_instructions = none ∨ obs.delivery_instructions = some "") →
        (resolve_or_create db newId addr obs geo).2.delivery_instructions
          = c.delivery_instructions)
  ∧ (resolve_or_create db newId addr obs geo).2.coordinates = c.coordinates
  ∧ ∃ c2, findCustomer (runResolves db calls) addr = some c2
        ∧ c2.coordinates = c.coordinates := by
  have h2 : (resolve_or_create db newId addr obs geo).2 = mergeCustomer obs c := by
    simp [resolve_or_create, h]
  rw [h2]
  refine ⟨?_, ?_, ?_, ?_, ?_, ?_, rfl, runResolves_coords calls db addr c h⟩
  · intro s hs hne
    simp [mergeCustomer, mergeField, hs, hne]
  · rintro (hs | hs) <;> simp [mergeCustomer, mergeField, hs]
  · intro s hs hne
    simp [mergeCustomer, mergeField, hs, hne]
  · rintro (hs | hs) <;> simp [mergeCustomer, mergeField, hs]
  · intro s hs hne
    simp [mergeCustomer, mergeField, hs, hne]
  · rintro (hs | hs) <;> simp [mergeCustomer, mergeField, hs]

/-- Witness for C7: merging observed fields into an existing customer record
overwrites only the non-empty field, keeps the empty and missing ones, and a
later call with fresh geocoordinates still leaves the original coordinates. -/
theorem C7_merge_on_write_witness :
    (resolve_or_create [c7Customer] "u9" "calle 1" c7Obs none).2.client_name = "new legal"
  ∧ (resolve_or_create [c7Customer] "u9" "calle 1" c7Obs none).2.commercial_name = "old shop"
  ∧ (resolve_or_create [c7Customer] "u9" "calle 1" c7Obs none).2.delivery_instructions
      = "ring twice"
  ∧ (resolve_or_create [c7Customer] "u9" "calle 1" c7Obs none).2.coordinates = some (10, 20)
  ∧ ∃ c2, findCustomer (runResolves [c7Customer] [c7LaterCall]) "calle 1" = some c2
        ∧ c2.coordinates = some (10, 20) := by
  have h := C7_merge_on_write [c7Customer] "u9" "calle 1" c7Obs none c7Customer
    [c7LaterCall] (by decide)
  refine ⟨h.1 "new legal" rfl (by decide), h.2.2.2.1 (Or.inl rfl),
    h.2.2.2.2.2.1 (Or.inr rfl), ?_, ?_⟩
  · exact h.2.2.2.2.2.2.1
  · obtain ⟨c2, hc2, hco⟩ := h.2.2.2.2.2.2.2
    exact ⟨c2, hc2, hco⟩

/-- Claim C8: `processInvoice` leaves the invoices list exactly as it was
when the API call fails (setting only the error message and clearing the
loading flag), and on success appends the returned invoices at the end,
leaving every previously stored invoice unchanged in its original position. -/
theorem C8_processInvoice_append {α : Type} (s : AppState α) (m : Option String)
    (ns : List α) :
    (processInvoice s (ApiResult.fail m)).invoices = s.invoices
  ∧ (processInvoice s (ApiResult.fail m)).error = some (errMessage m)
  ∧ (processInvoice s (ApiResult.fail m)).isLoading = false
  ∧ (processInvoice s (ApiResult.ok ns)).invoices = s.invoices ++ ns
  ∧ (processInvoice s (ApiResult.ok ns)).invoices.take s.invoices.length = s.invoices
  ∧ (processInvoice s (ApiResult.ok ns)).isLoading = false := by
  refine ⟨rfl, rfl, rfl, rfl, ?_, rfl⟩
  simp [processInvoice]

/-- Claim C9: RouteMap's filter tests coordinate values for truthiness, so a
record whose coordinates object is absent, or whose latitude or longitude is
missing/null or equal to 0, is treated as lacking coordinates and excluded
from the markers and the polyline — inserting such a record anywhere in the
input leaves the whole rendered map unchanged. -/
theorem C9_truthiness_filter (p : MapPoint) (l₁ l₂ : List MapPoint)
    (slp : Option (List (JsNum × JsNum)))
    (h : p.coordinates = none ∨ ∃ c, p.coordinates = some c ∧
      (c.latitude = JsNum.missing ∨ c.latitude = JsNum.num 0 ∨
       c.longitude = JsNum.missing ∨ c.longitude = JsNum.num 0)) :
    hasTruthyCoords p = false
  ∧ renderRouteMap (l₁ ++ p :: l₂) slp = renderRouteMap (l₁ ++ l₂) slp := by
  have hf : hasTruthyCoords p = false := by
    rcases h with h | ⟨c, hc, hcase⟩
    · simp [hasTruthyCoords, h]
    · rcases hcase with h1 | h1 | h1 | h1 <;>
        simp [hasTruthyCoords, hc, h1, JsNum.truthy]
  have hloc : locationsOf (l₁ ++ p :: l₂) = locationsOf (l₁ ++ l₂) := by
    simp [locationsOf, List.filter_append, List.filter_cons, hf]
  exact ⟨hf, by simp [renderRouteMap, hloc]⟩

/-- Witness for C9: a record with latitude 0 is dropped from the rendered map. -/
theorem C9_truthiness_filter_witness :
    hasTruthyCoords c9ZeroLatPoint = false
  ∧ renderRouteMap ([c3StopA] ++ c9ZeroLatPoint :: []) none =
      renderRouteMap ([c3StopA] ++ []) none :=
  C9_truthiness_filter c9ZeroLatPoint [c3StopA] [] none
    (Or.inr ⟨{ latitude := JsNum.num 0, longitude := JsNum.num 5 }, rfl,
      Or.inr (Or.inl rfl)⟩)

/-- Claim C10: in DeliveryTracker, `currentStopIndex` starts at 0, each press
of either action button advances it by exactly 1 while it is below the route
length and leaves it unchanged otherwise, it never exceeds the route length,
`isRouteComplete` holds exactly when the index equals the route length, and
the two buttons have the same effect. -/
theorem C10_tracker_progress (L : Nat) (ps : List TrackerButton) (b : TrackerButton) :
    runPresses L [] = 0
  ∧ runPresses L ps ≤ L
  ∧ runPresses L (ps ++ [b]) =
      (if runPresses L ps < L then runPresses L ps + 1 else runPresses L ps)
  ∧ (isRouteComplete L (runPresses L ps) = true ↔ runPresses L ps = L)
  ∧ (∀ i, pressButton TrackerButton.delivered L i =
        pressButton TrackerButton.undelivered L i) := by
  have hle : runPresses L ps ≤ L := foldlPress_le L ps 0 (Nat.zero_le L)
  refine ⟨rfl, hle, ?_, ?_, fun i => rfl⟩
  · unfold runPresses
    rw [List.foldl_append]
    simp [pressButton_eq_handleNextStop, handleNextStop]
  · unfold isRouteComplete
    constructor
    · intro h
      have := of_decide_eq_true h
      omega
    · intro h
      simp [h]

end Granix
